import Mathlib

/-!
Shallow embedding of the i18n-ally configuration core (`Config` class) and
the `i18n` message formatter, with theorems checking the specification's
claims against the code.

Settings values are dynamically typed in the source (VS Code configuration),
so we model them with a small JavaScript-like value type `JSVal` together
with its truthiness predicate.  The two configuration namespaces (current
and legacy) are modelled as association lists from keys to values; an
absent key plays the role of JavaScript's `undefined`.
-/

set_option maxHeartbeats 1000000

/-- A dynamically-typed configuration value, as stored in VS Code settings.
`undefined` is represented externally by `Option.none`. -/
inductive JSVal where
  | str (s : String)
  | num (n : Int)
  | bool (b : Bool)
  | arr (xs : List String)
  | null
deriving DecidableEq, Repr

/-- JavaScript truthiness of a (defined) value. -/
def JSVal.truthy : JSVal → Bool
  | JSVal.str s => s ≠ ""
  | JSVal.num n => n ≠ 0
  | JSVal.bool b => b
  | JSVal.arr _ => true
  | JSVal.null => false

/-- First-match association-list lookup (models reading one settings namespace;
`none` is JavaScript's `undefined`). -/
def alookup {α : Type} : List (String × α) → String → Option α
  | [], _ => none
  | (k, v) :: rest, key => if k = key then some v else alookup rest key

/-- Remove a key from a namespace (models `update(key, undefined)`). -/
def aerase {α : Type} (m : List (String × α)) (key : String) : List (String × α) :=
  m.filter (fun p => decide (p.1 ≠ key))

/-- Set a key in a namespace (models `update(key, value)`). -/
def ainsert {α : Type} (m : List (String × α)) (key : String) (v : α) : List (String × α) :=
  (key, v) :: aerase m key

/-- The two settings namespaces the extension reads: the current namespace
(`EXT_NAMESPACE`) and the legacy one (`EXT_LEGACY_NAMESPACE`, kept for
backward compatibility with vue-i18n-ally).  Workspace/global settings
layering is not modelled: each namespace is a single key-value store. -/
structure WorkspaceConfig where
  current : List (String × JSVal)
  legacy : List (String × JSVal)
deriving DecidableEq, Repr

/-- JavaScript `x || d` applied to a possibly-undefined value. -/
def jsOr (v : Option JSVal) (d : JSVal) : JSVal :=
  match v with
  | some x => if x.truthy then x else d
  | none => d

/-- JavaScript `x ?? d` (nullish coalescing) applied to a possibly-undefined value. -/
def jsNullish (v : Option JSVal) (d : JSVal) : JSVal :=
  match v with
  | some JSVal.null => d
  | some x => x
  | none => d

/-- JavaScript `x || d` for a string-typed option (per the extension's settings
schema these keys hold strings when present). -/
def strOr (v : Option JSVal) (d : String) : String :=
  match v with
  | some (JSVal.str s) => if s = "" then d else s
  | _ => d

/-- JavaScript `a || b` on two strings. -/
def strFallback (a b : String) : String :=
  if a = "" then b else a

namespace Config

/-- Embeds `Config.getConfig`: read the key in the current extension namespace
and, when that yields `undefined`, fall back to the legacy namespace. -/
def getConfig (cfg : WorkspaceConfig) (key : String) : Option JSVal :=
  match alookup cfg.current key with
  | some v => some v
  | none => alookup cfg.legacy key

/-- Embeds `Config.setConfig`: when the legacy namespace holds a truthy value
for the key, clear it there (transfer of the legacy config), then write the
value into the current namespace. -/
def setConfig (cfg : WorkspaceConfig) (key : String) (value : JSVal) : WorkspaceConfig :=
  let cfg1 :=
    match alookup cfg.legacy key with
    | some v => if v.truthy then WorkspaceConfig.mk cfg.current (aerase cfg.legacy key) else cfg
    | none => cfg
  WorkspaceConfig.mk (ainsert cfg1.current key value) cfg1.legacy

/-- Embeds the `Config.disablePathParsing` getter: `getConfig('disablePathParsing') ?? false`. -/
def disablePathParsing (cfg : WorkspaceConfig) : JSVal :=
  jsNullish (getConfig cfg "disablePathParsing") (JSVal.bool false)

/-- Embeds the `Config._keyStyle` getter: the configured `keystyle` defaulting to
`'auto'`; `'auto'` with truthy `disablePathParsing` forces `'flat'`. -/
def _keyStyle (cfg : WorkspaceConfig) : JSVal :=
  let style := jsOr (getConfig cfg "keystyle") (JSVal.str "auto")
  if style = JSVal.str "auto" ∧ (disablePathParsing cfg).truthy = true then JSVal.str "flat"
  else style

/-- Embeds the `Config.translateParallels` getter: `getConfig('translate.parallels') || 5`. -/
def translateParallels (cfg : WorkspaceConfig) : JSVal :=
  jsOr (getConfig cfg "translate.parallels") (JSVal.num 5)

/-- Embeds the `Config.ignoredLocales` getter: `undefined` and falsy values give `[]`,
a (nonempty) string gives a singleton, an array is returned as-is. -/
def ignoredLocales (cfg : WorkspaceConfig) : List String :=
  match getConfig cfg "ignoredLocales" with
  | none => []
  | some v =>
    if v.truthy = false then []
    else
      match v with
      | JSVal.str s => [s]
      | JSVal.arr xs => xs
      | _ => []

/-- Embeds `Config.toggleLocaleVisibility`: hiding pushes the locale onto the
ignored list, showing filters it out; `none` for the optional `visible`
argument toggles based on current membership. -/
def toggleLocaleVisibility (cfg : WorkspaceConfig) (locale : String)
    (visible? : Option Bool) : WorkspaceConfig :=
  let ignored := ignoredLocales cfg
  let visible :=
    match visible? with
    | some b => b
    | none => !(ignored.contains locale)
  if visible = false then
    setConfig cfg "ignoredLocales" (JSVal.arr (ignored ++ [locale]))
  else
    setConfig cfg "ignoredLocales" (JSVal.arr (ignored.filter (fun i => decide (i ≠ locale))))

end Config

/-- Split a character list at every comma (models JavaScript `String.split(',')`,
which yields `[""]` on the empty string and keeps empty segments). -/
def splitComma : List Char → List (List Char)
  | [] => [[]]
  | c :: cs =>
    if c = ',' then [] :: splitComma cs
    else
      match splitComma cs with
      | [] => [[c]]
      | g :: gs => (c :: g) :: gs

/-- Join character lists with commas (the inverse image used to state the
string-versus-array equivalence). -/
def joinComma : List (List Char) → List Char
  | [] => []
  | [x] => x
  | x :: y :: ys => x ++ ',' :: joinComma (y :: ys)

/-- Is the character a forward or backward slash? -/
def isSlash (c : Char) : Bool := c = '/' || c = '\\'

/-- Path normalization applied by `Config._localesPaths` to each entry:
lodash `trimEnd(i, '/\\')` followed by `.replace(/\\/g, '/')`, on characters. -/
def normPathL (l : List Char) : List Char :=
  ((l.reverse.dropWhile isSlash).reverse).map (fun c => if c = '\\' then '/' else c)

/-- String form of `normPathL`. -/
def normPath (s : String) : String := String.mk (normPathL s.data)

/-- Helper for lodash `uniq`: keep elements not yet seen, first occurrences first. -/
def uniqAux (seen : List String) : List String → List String
  | [] => []
  | x :: xs => if x ∈ seen then uniqAux seen xs else x :: uniqAux (x :: seen) xs

/-- Embeds lodash `uniq`: remove duplicates keeping the first occurrence of each element. -/
def uniqFirst (l : List String) : List String := uniqAux [] l

namespace Config

/-- Embeds the `Config._localesPaths` getter: a falsy value (absent key or empty
string) yields `undefined`; a string is split on commas; an array is taken as-is;
each entry then gets trailing slashes/backslashes trimmed and backslashes
replaced by forward slashes.  A truthy value that is neither a string nor an
array would make the source throw on `.map`; that is modelled as `none`. -/
def _localesPaths (cfg : WorkspaceConfig) : Option (List String) :=
  match getConfig cfg "localesPaths" with
  | none => none
  | some v =>
    if v.truthy = false then none
    else
      match v with
      | JSVal.str s => some ((splitComma s.data).map (fun l => normPath (String.mk l)))
      | JSVal.arr xs => some (xs.map normPath)
      | _ => none

/-- Embeds `Config.updateLocalesPaths`: store `uniq((this._localesPaths || []).concat(paths))`. -/
def updateLocalesPaths (cfg : WorkspaceConfig) (paths : List String) : WorkspaceConfig :=
  setConfig cfg "localesPaths" (JSVal.arr (uniqFirst (((_localesPaths cfg).getD []) ++ paths)))

end Config

/-- Split a character list at every `-` or `_` separator (subtag decomposition
of a raw locale string). -/
def splitSeps : List Char → List (List Char)
  | [] => [[]]
  | c :: cs =>
    if c = '-' || c = '_' then [] :: splitSeps cs
    else
      match splitSeps cs with
      | [] => [[c]]
      | g :: gs => (c :: g) :: gs

/-- Case-folded subtag list of a raw locale string: split on `-`/`_` and
lowercase every subtag.  Two raw strings denote the same locale (claim C7's
hypothesis) exactly when their folded subtag lists coincide. -/
def tagFold (s : String) : List String :=
  (splitSeps s.data).map (fun l => String.mk (l.map Char.toLower))

/-- Modelled from the spec: the canonical structured locale tag
`{ language, script?, region? }` produced by `TagSystem.normalize`
(the tag-system module itself is not among the given sources). -/
structure LocaleTag where
  language : String
  script : Option String
  region : Option String
deriving DecidableEq, Repr

/-- Modelled from the spec: parse a folded subtag list into a structured tag —
a lone language subtag, language plus script (4 letters) or region, or
language-script-region; anything else is unresolved. -/
def parseFold : List String → Option LocaleTag
  | [l] => if l = "" then none else some (LocaleTag.mk l none none)
  | [l, x] =>
    if l = "" ∨ x = "" then none
    else if x.length = 4 then some (LocaleTag.mk l (some x) none)
    else some (LocaleTag.mk l none (some x))
  | [l, x, y] =>
    if l = "" ∨ x = "" ∨ y = "" then none
    else some (LocaleTag.mk l (some x) (some y))
  | _ => none

/-- Uppercase the first character (canonical casing of a script subtag). -/
def titleCase (s : String) : String :=
  match s.data with
  | [] => ""
  | c :: cs => String.mk (c.toUpper :: cs)

/-- Uppercase every character (canonical casing of a region subtag). -/
def upperCase (s : String) : String := String.mk (s.data.map Char.toUpper)

/-- Modelled from the spec: render a structured tag in canonical wire form with
the tag system's separator (lowercase language, Titlecase script, UPPERCASE region). -/
def renderTag (sep : String) (t : LocaleTag) : String :=
  t.language
    ++ (match t.script with | some sc => sep ++ titleCase sc | none => "")
    ++ (match t.region with | some r => sep ++ upperCase r | none => "")

/-- Modelled from the spec: the common normalization kernel of a tag system.
On an unresolvable input it returns the fallback when one is given; with no
fallback it returns the `'unresolved'` marker under `strict` and the empty
string otherwise (it never throws). -/
def normCore (sep : String) (subtags : List String) (fallback : Option String)
    (strict : Bool) : String :=
  match parseFold subtags with
  | some t => renderTag sep t
  | none =>
    match fallback with
    | some f => f
    | none => if strict then "unresolved" else ""

/-- Modelled from the spec: a pluggable tag system is its normalize function
`normalize(input, fallback?, strict?) -> string`. -/
structure TagSystem where
  normalize : String → Option String → Bool → String

/-- Modelled from the spec: the default BCP-47 tag system (dash separator). -/
def bcp47Sys : TagSystem := TagSystem.mk (fun s fb strict => normCore "-" (tagFold s) fb strict)

/-- Modelled from the spec: the legacy underscore-style tag system. -/
def legacySys : TagSystem := TagSystem.mk (fun s fb strict => normCore "_" (tagFold s) fb strict)

/-- Modelled from the spec: the registry of tag systems by name (the source's
`TagSystems` import, absent from the given sources). -/
def TagSystems : List (String × TagSystem) :=
  [("bcp47", bcp47Sys), ("legacy", legacySys)]

namespace Config

/-- Embeds the `Config.tagSystem` getter:
`TagSystems[getConfig('languageTagSystem') || 'bcp47']`. -/
def tagSystem (cfg : WorkspaceConfig) : Option TagSystem :=
  alookup TagSystems (strOr (getConfig cfg "languageTagSystem") "bcp47")

/-- Embeds `Config.normalizeLocale`: delegate to the selected tag system
(`none` models the crash when no tag system is registered under the
configured name). -/
def normalizeLocale (cfg : WorkspaceConfig) (locale : String) (fallback : Option String)
    (strict : Bool) : Option String :=
  (tagSystem cfg).map (fun ts => ts.normalize locale fallback strict)

/-- Embeds the `Config.displayLanguage` getter:
`normalizeLocale(getConfig('displayLanguage') || '')` (no fallback argument). -/
def displayLanguage (cfg : WorkspaceConfig) : Option String :=
  (tagSystem cfg).map (fun ts => ts.normalize (strOr (getConfig cfg "displayLanguage") "") none false)

/-- Embeds the `Config.sourceLanguage` getter:
`normalizeLocale(getConfig('sourceLanguage') || '', '') || displayLanguage || 'en'`. -/
def sourceLanguage (cfg : WorkspaceConfig) : Option String :=
  match tagSystem cfg with
  | none => none
  | some ts =>
    some (strFallback
      (strFallback
        (ts.normalize (strOr (getConfig cfg "sourceLanguage") "") (some "") false)
        (ts.normalize (strOr (getConfig cfg "displayLanguage") "") none false))
      "en")

end Config

/-- Try to read a placeholder body right after a `{`: one or more ASCII digits
followed by `}` (the regex `/{(\d+)}/` continued after its opening brace).
Returns the digit run and the characters after the closing brace. -/
def takePh (l : List Char) : Option (List Char × List Char) :=
  let ds := l.takeWhile Char.isDigit
  match l.dropWhile Char.isDigit with
  | '}' :: r => if ds.isEmpty then none else some (ds, r)
  | _ => none

/-- Numeric value of a digit run. -/
def digitsToNat (ds : List Char) : Nat :=
  ds.foldl (fun a c => a * 10 + (c.toNat - 48)) 0

/-- The entry of `args` selected by the captured digit string, with JavaScript
array-property semantics: an array only has entries at canonical decimal keys,
so a digit string with leading zeros selects nothing.  A `none` entry models an
`undefined` element; a defined entry carries its string form. -/
def jsIndex (args : List (Option String)) (ds : List Char) : Option String :=
  if Nat.repr (digitsToNat ds) = String.mk ds then args.getD (digitsToNat ds) none
  else none

/-- Fuelled scanner embedding `str.replace(/{(\d+)}/g, cb)` with the callback of
`i18n.format`: a matched `{digits}` is replaced by the argument's string form
when the selected entry is defined and kept verbatim otherwise; scanning resumes
after the match, or one character further on a failed match.  The fuel starts at
the input length and never runs out. -/
def fmtGo (args : List (Option String)) : Nat → List Char → List Char
  | _, [] => []
  | 0, l => l
  | fuel + 1, c :: rest =>
    if c = '{' then
      match takePh rest with
      | some (ds, r) =>
        (match jsIndex args ds with
         | some v => v.data
         | none => '{' :: (ds ++ ['}'])) ++ fmtGo args fuel r
      | none => '{' :: fmtGo args fuel rest
    else c :: fmtGo args fuel rest

namespace i18n

/-- Embeds `i18n.format`. -/
def format (s : String) (args : List (Option String)) : String :=
  String.mk (fmtGo args s.data.length s.data)

/-- Embeds `i18n.t` with the loaded message table passed explicitly:
`messages[key] || ''`, formatted when arguments are supplied. -/
def t (messages : List (String × String)) (key : String)
    (args : List (Option String)) : String :=
  let text := (alookup messages key).getD ""
  if args.length ≠ 0 then format text args else text

end i18n

/-- A lexical piece of a template string: a literal character or a `{digits}`
placeholder. -/
inductive FTok where
  | lit (c : Char)
  | ph (ds : List Char)
deriving DecidableEq, Repr

/-- Fuelled tokenizer splitting a template into literal characters and
`{digits}` placeholders, mirroring the scan of `fmtGo`. -/
def tokGo : Nat → List Char → List FTok
  | _, [] => []
  | 0, _ => []
  | fuel + 1, c :: rest =>
    if c = '{' then
      match takePh rest with
      | some (ds, r) => FTok.ph ds :: tokGo fuel r
      | none => FTok.lit '{' :: tokGo fuel rest
    else FTok.lit c :: tokGo fuel rest

/-- Tokenize a template string. -/
def tokenize (l : List Char) : List FTok := tokGo l.length l

/-- Render one token: placeholders go through the given argument lookup and are
kept verbatim when it yields nothing. -/
def renderTok (lk : List Char → Option String) : FTok → List Char
  | FTok.lit c => [c]
  | FTok.ph ds =>
    match lk ds with
    | some v => v.data
    | none => '{' :: (ds ++ ['}'])

/-- Render a token list. -/
def renderToks (lk : List Char → Option String) (toks : List FTok) : List Char :=
  (toks.map (renderTok lk)).flatten

/-- The amended claim C8 as a definition: replace exactly the placeholders whose
digit string is the canonical decimal numeral of an index with a defined entry,
keep every other placeholder and all literal text verbatim. -/
def formatAmended (s : String) (args : List (Option String)) : String :=
  String.mk (renderToks (jsIndex args) (tokenize s.data))

/-- Claim C8 as stated, as a definition: a placeholder is replaced whenever the
number denoted by its digit string indexes a defined entry of `args`
(so `{01}` would be treated like `{1}`). -/
def formatClaimed (s : String) (args : List (Option String)) : String :=
  String.mk (renderToks (fun ds => args.getD (digitsToNat ds) none) (tokenize s.data))

/-! ## Helper lemmas -/

theorem alookup_ainsert_self {α : Type} (m : List (String × α)) (k : String) (v : α) :
    alookup (ainsert m k v) k = some v := by
  simp [ainsert, alookup]

theorem alookup_aerase_self {α : Type} (m : List (String × α)) (k : String) :
    alookup (aerase m k) k = none := by
  induction m with
  | nil => rfl
  | cons p rest ih =>
    by_cases h : p.1 = k
    · simpa [aerase, List.filter_cons, h] using ih
    · simpa [aerase, List.filter_cons, h, alookup] using ih

theorem getConfig_setConfig_self (cfg : WorkspaceConfig) (k : String) (v : JSVal) :
    Config.getConfig (Config.setConfig cfg k v) k = some v := by
  unfold Config.getConfig Config.setConfig
  cases h : alookup cfg.legacy k with
  | none => simp [alookup_ainsert_self]
  | some lv => by_cases ht : lv.truthy <;> simp [ht, alookup_ainsert_self]

theorem ignoredLocales_setConfig (cfg : WorkspaceConfig) (xs : List String) :
    Config.ignoredLocales (Config.setConfig cfg "ignoredLocales" (JSVal.arr xs)) = xs := by
  simp [Config.ignoredLocales, getConfig_setConfig_self, JSVal.truthy]

theorem alookup_setConfig_current_self (cfg : WorkspaceConfig) (k : String) (v : JSVal) :
    alookup (Config.setConfig cfg k v).current k = some v := by
  unfold Config.setConfig
  cases h : alookup cfg.legacy k with
  | none => simp [alookup_ainsert_self]
  | some lv => by_cases ht : lv.truthy <;> simp [ht, alookup_ainsert_self]

theorem mem_uniqAux (a : String) : ∀ (l seen : List String),
    a ∈ uniqAux seen l ↔ (a ∈ l ∧ a ∉ seen)
  | [], seen => by simp [uniqAux]
  | x :: xs, seen => by
    by_cases hx : x ∈ seen
    · simp only [uniqAux, if_pos hx, mem_uniqAux a xs seen, List.mem_cons]
      constructor
      · rintro ⟨h1, h2⟩
        exact ⟨Or.inr h1, h2⟩
      · rintro ⟨h1 | h1, h2⟩
        · subst h1; exact absurd hx h2
        · exact ⟨h1, h2⟩
    · simp only [uniqAux, if_neg hx, List.mem_cons, mem_uniqAux a xs (x :: seen)]
      constructor
      · rintro (rfl | ⟨h1, h2⟩)
        · exact ⟨Or.inl rfl, hx⟩
        · exact ⟨Or.inr h1, fun hs => h2 (Or.inr hs)⟩
      · rintro ⟨h1 | h1, h2⟩
        · exact Or.inl h1
        · by_cases hax : a = x
          · exact Or.inl hax
          · exact Or.inr ⟨h1, fun hc => hc.elim hax h2⟩

theorem uniqAux_nodup : ∀ (l seen : List String), (uniqAux seen l).Nodup
  | [], _ => by simp [uniqAux]
  | x :: xs, seen => by
    by_cases hx : x ∈ seen
    · simpa [uniqAux, hx] using uniqAux_nodup xs seen
    · simp only [uniqAux, if_neg hx]
      refine List.nodup_cons.mpr ⟨?_, uniqAux_nodup xs (x :: seen)⟩
      intro hmem
      exact ((mem_uniqAux x xs (x :: seen)).mp hmem).2 (List.mem_cons_self x seen)

theorem uniqAux_eq_nil : ∀ (l seen : List String), (∀ a ∈ l, a ∈ seen) →
    uniqAux seen l = []
  | [], _, _ => rfl
  | x :: xs, seen, h => by
    have hx : x ∈ seen := h x (List.mem_cons_self x xs)
    simp only [uniqAux, if_pos hx]
    exact uniqAux_eq_nil xs seen (fun a ha => h a (List.mem_cons_of_mem _ ha))

theorem uniqAux_append : ∀ (xs seen q : List String),
    (∀ x ∈ xs, x ∉ seen) → xs.Nodup → (∀ p ∈ q, p ∈ xs ∨ p ∈ seen) →
    uniqAux seen (xs ++ q) = xs
  | [], seen, q, _, _, hq => by
    simp only [List.nil_append]
    exact uniqAux_eq_nil q seen
      (fun a ha => (hq a ha).elim (fun h => absurd h (List.not_mem_nil a)) id)
  | x :: xs, seen, q, hs, hn, hq => by
    have hx : x ∉ seen := hs x (List.mem_cons_self x xs)
    simp only [List.cons_append, uniqAux, if_neg hx]
    congr 1
    apply uniqAux_append xs (x :: seen) q
    · intro y hy hc
      rcases List.mem_cons.mp hc with h | h
      · exact (List.nodup_cons.mp hn).1 (h ▸ hy)
      · exact hs y (List.mem_cons_of_mem _ hy) h
    · exact (List.nodup_cons.mp hn).2
    · intro p hp
      rcases hq p hp with h | h
      · rcases List.mem_cons.mp h with h1 | h1
        · exact Or.inr (h1 ▸ List.mem_cons_self x seen)
        · exact Or.inl h1
      · exact Or.inr (List.mem_cons_of_mem _ h)

theorem list_map_self {α : Type} (f : α → α) : ∀ (l : List α),
    (∀ x ∈ l, f x = x) → l.map f = l
  | [], _ => rfl
  | x :: xs, h => by
    simp only [List.map_cons]
    rw [h x (List.mem_cons_self x xs),
      list_map_self f xs (fun y hy => h y (List.mem_cons_of_mem _ hy))]

theorem updateLocalesPaths_stores (cfg : WorkspaceConfig) (q : List String) :
    alookup (Config.updateLocalesPaths cfg q).current "localesPaths"
      = some (JSVal.arr (uniqFirst (((Config._localesPaths cfg).getD []) ++ q))) :=
  alookup_setConfig_current_self cfg "localesPaths" _

theorem string_mk_data (s : String) : String.mk s.data = s := by
  cases s
  rfl

theorem splitComma_no_comma : ∀ (l : List Char), ',' ∉ l → splitComma l = [l]
  | [], _ => rfl
  | c :: cs, h => by
    simp only [List.mem_cons, not_or] at h
    obtain ⟨h1, h2⟩ := h
    have hc : ¬ (c = ',') := fun he => h1 he.symm
    simp only [splitComma, if_neg hc]
    rw [splitComma_no_comma cs h2]

theorem splitComma_append (x r : List Char) (hx : ',' ∉ x) :
    splitComma (x ++ ',' :: r) = x :: splitComma r := by
  induction x with
  | nil => simp [splitComma]
  | cons c cs ih =>
    simp only [List.mem_cons, not_or] at hx
    obtain ⟨h1, h2⟩ := hx
    have hc : ¬ (c = ',') := fun he => h1 he.symm
    simp only [List.cons_append, splitComma, if_neg hc]
    rw [show splitComma (cs.append (',' :: r)) = cs :: splitComma r from ih h2]

theorem tagSystems_normalize_factor (name : String) (ts : TagSystem)
    (h : alookup TagSystems name = some ts) (s1 s2 : String) (fb : Option String) (st : Bool)
    (hf : tagFold s1 = tagFold s2) : ts.normalize s1 fb st = ts.normalize s2 fb st := by
  simp only [TagSystems, alookup] at h
  by_cases h1 : "bcp47" = name
  · rw [if_pos h1] at h
    injection h with he
    rw [← he]
    show normCore "-" (tagFold s1) fb st = normCore "-" (tagFold s2) fb st
    rw [hf]
  · rw [if_neg h1] at h
    by_cases h2 : "legacy" = name
    · rw [if_pos h2] at h
      injection h with he
      rw [← he]
      show normCore "_" (tagFold s1) fb st = normCore "_" (tagFold s2) fb st
      rw [hf]
    · rw [if_neg h2] at h
      exact Option.noConfusion h

theorem strFallback_ne_empty (a b : String) (hb : b ≠ "") : strFallback a b ≠ "" := by
  by_cases ha : a = ""
  · simpa [strFallback, ha] using hb
  · simp [strFallback, ha]

theorem takePh_length (l ds r : List Char) (h : takePh l = some (ds, r)) :
    r.length < l.length := by
  unfold takePh at h
  split at h
  next r' heq =>
    by_cases he : (l.takeWhile Char.isDigit).isEmpty = true
    · simp [he] at h
    · simp [he] at h
      obtain ⟨hds, hr⟩ := h
      have hsplit : l.takeWhile Char.isDigit ++ l.dropWhile Char.isDigit = l :=
        List.takeWhile_append_dropWhile Char.isDigit l
      have hlen : l.length = (l.takeWhile Char.isDigit).length + (r'.length + 1) := by
        conv_lhs => rw [← hsplit]
        rw [heq]
        simp [List.length_append]
      subst hr
      omega
  next => exact Option.noConfusion h

theorem renderToks_cons (lk : List Char → Option String) (t : FTok) (ts : List FTok) :
    renderToks lk (t :: ts) = renderTok lk t ++ renderToks lk ts := by
  simp [renderToks]

theorem fmtGo_eq_render (args : List (Option String)) :
    ∀ (fuel : Nat) (l : List Char), l.length ≤ fuel →
    fmtGo args fuel l = renderToks (jsIndex args) (tokGo fuel l) := by
  intro fuel
  induction fuel with
  | zero =>
    intro l hl
    have hnil : l = [] := List.eq_nil_of_length_eq_zero (Nat.le_zero.mp hl)
    subst hnil
    rfl
  | succ fuel ih =>
    intro l hl
    cases l with
    | nil => rfl
    | cons c rest =>
      have hrest : rest.length ≤ fuel := by
        simpa using Nat.le_of_succ_le_succ hl
      by_cases hc : c = '{'
      · simp only [fmtGo, tokGo, if_pos hc]
        cases htp : takePh rest with
        | none =>
          rw [renderToks_cons, ih rest hrest]
          rfl
        | some pr =>
          obtain ⟨ds, r⟩ := pr
          have hr : r.length ≤ fuel :=
            Nat.le_of_lt (Nat.lt_of_lt_of_le (takePh_length rest ds r htp) hrest)
          rw [renderToks_cons]
          show (match jsIndex args ds with
              | some v => v.data
              | none => '{' :: (ds ++ ['}'])) ++ fmtGo args fuel r
            = renderTok (jsIndex args) (FTok.ph ds) ++ renderToks (jsIndex args) (tokGo fuel r)
          rw [ih r hr]
          rfl
      · simp only [fmtGo, tokGo, if_neg hc]
        rw [renderToks_cons, ih rest hrest]
        rfl

theorem splitComma_joinComma : ∀ (ps : List (List Char)), ps ≠ [] →
    (∀ p ∈ ps, ',' ∉ p) → splitComma (joinComma ps) = ps
  | [], h, _ => absurd rfl h
  | [x], _, hp => by
    simp only [joinComma]
    exact splitComma_no_comma x (hp x (List.mem_cons_self x []))
  | x :: y :: ys, _, hp => by
    simp only [joinComma]
    rw [splitComma_append x _ (hp x (List.mem_cons_self _ _))]
    congr 1
    exact splitComma_joinComma (y :: ys) (by simp)
      (fun p hmem => hp p (List.mem_cons_of_mem _ hmem))

/-! ## Claim theorems -/

/-- C1, counterexample to the claim as stated: with the legacy namespace holding
the (defined but falsy) value `false` for `disabled`, `setConfig` does not clear
the legacy entry before writing, so the legacy value is not migrated away. -/
theorem setConfig_legacy_falsy_cex :
    alookup (Config.setConfig (WorkspaceConfig.mk [] [("disabled", JSVal.bool false)])
      "disabled" (JSVal.bool true)).legacy "disabled" ≠ none := by decide

/-- C1 (amended): reading a key that is undefined in the current namespace falls
back to the legacy namespace; `setConfig` writes the value into the current
namespace, clearing the key in the legacy namespace first when (and only when)
the legacy value is truthy. -/
theorem getConfig_setConfig_spec :
    (∀ cfg k, alookup cfg.current k = none → Config.getConfig cfg k = alookup cfg.legacy k)
    ∧ (∀ cfg k v, alookup (Config.setConfig cfg k v).current k = some v)
    ∧ (∀ cfg k v lv, alookup cfg.legacy k = some lv → lv.truthy = true →
        alookup (Config.setConfig cfg k v).legacy k = none)
    ∧ (∀ cfg k v lv, alookup cfg.legacy k = some lv → lv.truthy = false →
        (Config.setConfig cfg k v).legacy = cfg.legacy) := by
  refine ⟨fun cfg k h => ?_, fun cfg k v => ?_, fun cfg k v lv h ht => ?_,
    fun cfg k v lv h ht => ?_⟩
  · simp [Config.getConfig, h]
  · unfold Config.setConfig
    cases h : alookup cfg.legacy k with
    | none => simp [alookup_ainsert_self]
    | some lv => by_cases ht : lv.truthy <;> simp [ht, alookup_ainsert_self]
  · simp [Config.setConfig, h, ht, alookup_aerase_self]
  · simp [Config.setConfig, h, ht]

/-- Witness for C1's amended theorem at concrete configurations. -/
theorem getConfig_setConfig_spec_w :
    Config.getConfig (WorkspaceConfig.mk [] [("k", JSVal.str "v")]) "k" = some (JSVal.str "v")
    ∧ alookup (Config.setConfig (WorkspaceConfig.mk [] []) "k" (JSVal.num 1)).current "k"
        = some (JSVal.num 1)
    ∧ alookup (Config.setConfig (WorkspaceConfig.mk [] [("k", JSVal.str "v")]) "k"
        (JSVal.num 1)).legacy "k" = none
    ∧ (Config.setConfig (WorkspaceConfig.mk [] [("k", JSVal.bool false)]) "k"
        (JSVal.num 1)).legacy = [("k", JSVal.bool false)] :=
  ⟨getConfig_setConfig_spec.1 _ "k" rfl,
   getConfig_setConfig_spec.2.1 _ "k" _,
   getConfig_setConfig_spec.2.2.1 _ "k" (JSVal.num 1) (JSVal.str "v") rfl (by decide),
   getConfig_setConfig_spec.2.2.2 _ "k" (JSVal.num 1) (JSVal.bool false) rfl (by decide)⟩

/-- C2, counterexample to the claim as stated: with no `keystyle` configured and
`disablePathParsing` set, `_keyStyle` is `'flat'`, not the `'auto'` the claim's
otherwise-branch prescribes for an unconfigured style. -/
theorem keyStyle_unset_dpp_cex :
    Config._keyStyle (WorkspaceConfig.mk [("disablePathParsing", JSVal.bool true)] [])
        = JSVal.str "flat"
    ∧ Config._keyStyle (WorkspaceConfig.mk [("disablePathParsing", JSVal.bool true)] [])
        ≠ JSVal.str "auto" := by decide

/-- C2 (amended): if the effective keystyle — the configured value, defaulting to
`'auto'` when unset or falsy — is `'auto'` and `disablePathParsing` is truthy,
`_keyStyle` is `'flat'`; otherwise it is the effective keystyle. -/
theorem keyStyle_spec (cfg : WorkspaceConfig) :
    (jsOr (Config.getConfig cfg "keystyle") (JSVal.str "auto") = JSVal.str "auto" →
      (Config.disablePathParsing cfg).truthy = true →
      Config._keyStyle cfg = JSVal.str "flat")
    ∧ (¬ (jsOr (Config.getConfig cfg "keystyle") (JSVal.str "auto") = JSVal.str "auto" ∧
          (Config.disablePathParsing cfg).truthy = true) →
        Config._keyStyle cfg = jsOr (Config.getConfig cfg "keystyle") (JSVal.str "auto")) := by
  constructor
  · intro h1 h2
    simp [Config._keyStyle, h1, h2]
  · intro h
    unfold Config._keyStyle
    rw [if_neg h]

/-- Witness for C2's amended theorem at concrete configurations. -/
theorem keyStyle_spec_w :
    Config._keyStyle (WorkspaceConfig.mk
        [("keystyle", JSVal.str "auto"), ("disablePathParsing", JSVal.bool true)] [])
      = JSVal.str "flat"
    ∧ Config._keyStyle (WorkspaceConfig.mk [("keystyle", JSVal.str "nested")] [])
      = JSVal.str "nested" :=
  ⟨(keyStyle_spec _).1 (by decide) (by decide), (keyStyle_spec _).2 (by decide)⟩

/-- C3, counterexample to the claim as stated: `translate.parallels` configured
as `0` is set, yet the getter returns the default `5` because `0` is falsy. -/
theorem translateParallels_zero_cex :
    Config.translateParallels (WorkspaceConfig.mk [("translate.parallels", JSVal.num 0)] [])
      ≠ JSVal.num 0 := by decide

/-- C3 (amended): `translateParallels` returns the configured value when it is a
nonzero number, and the default `5` when the option is unset or set to the falsy `0`. -/
theorem translateParallels_spec :
    (∀ cfg n, Config.getConfig cfg "translate.parallels" = some (JSVal.num n) → n ≠ 0 →
      Config.translateParallels cfg = JSVal.num n)
    ∧ (∀ cfg, Config.getConfig cfg "translate.parallels" = none →
      Config.translateParallels cfg = JSVal.num 5)
    ∧ (∀ cfg, Config.getConfig cfg "translate.parallels" = some (JSVal.num 0) →
      Config.translateParallels cfg = JSVal.num 5) := by
  refine ⟨fun cfg n h hn => ?_, fun cfg h => ?_, fun cfg h => ?_⟩
  · simp [Config.translateParallels, jsOr, h, JSVal.truthy, hn]
  · simp [Config.translateParallels, jsOr, h]
  · simp [Config.translateParallels, jsOr, h, JSVal.truthy]

/-- Witness for C3's amended theorem at concrete configurations. -/
theorem translateParallels_spec_w :
    Config.translateParallels (WorkspaceConfig.mk [("translate.parallels", JSVal.num 7)] [])
      = JSVal.num 7
    ∧ Config.translateParallels (WorkspaceConfig.mk [] []) = JSVal.num 5
    ∧ Config.translateParallels (WorkspaceConfig.mk [("translate.parallels", JSVal.num 0)] [])
      = JSVal.num 5 :=
  ⟨translateParallels_spec.1 _ 7 rfl (by decide),
   translateParallels_spec.2.1 _ rfl,
   translateParallels_spec.2.2 _ rfl⟩

/-- C5, counterexample to the claim as stated: `languageTagSystem` configured as
the empty string is configured, yet the selected system is the one registered
under `'bcp47'`, not the (non-existent) one registered under `''`. -/
theorem tagSystem_empty_cex :
    Config.tagSystem (WorkspaceConfig.mk [("languageTagSystem", JSVal.str "")] [])
      ≠ alookup TagSystems "" := by
  intro h
  have h1 : Config.tagSystem (WorkspaceConfig.mk [("languageTagSystem", JSVal.str "")] [])
      = some bcp47Sys := rfl
  have h2 : alookup TagSystems "" = (none : Option TagSystem) := rfl
  rw [h1, h2] at h
  exact Option.noConfusion h

/-- C5 (amended): with `languageTagSystem` unset — or set to the falsy empty
string — the tag system registered under `'bcp47'` is selected; with a nonempty
configured name, the system registered under that name is selected. -/
theorem tagSystem_spec :
    (∀ cfg, Config.getConfig cfg "languageTagSystem" = none →
      Config.tagSystem cfg = alookup TagSystems "bcp47")
    ∧ (∀ cfg name, Config.getConfig cfg "languageTagSystem" = some (JSVal.str name) →
        name ≠ "" → Config.tagSystem cfg = alookup TagSystems name)
    ∧ (∀ cfg, Config.getConfig cfg "languageTagSystem" = some (JSVal.str "") →
      Config.tagSystem cfg = alookup TagSystems "bcp47") := by
  refine ⟨fun cfg h => ?_, fun cfg name h hn => ?_, fun cfg h => ?_⟩
  · simp [Config.tagSystem, strOr, h]
  · simp [Config.tagSystem, strOr, h, hn]
  · simp [Config.tagSystem, strOr, h]

/-- Witness for C5's amended theorem at concrete configurations. -/
theorem tagSystem_spec_w :
    Config.tagSystem (WorkspaceConfig.mk [] []) = alookup TagSystems "bcp47"
    ∧ Config.tagSystem (WorkspaceConfig.mk [("languageTagSystem", JSVal.str "legacy")] [])
      = alookup TagSystems "legacy"
    ∧ Config.tagSystem (WorkspaceConfig.mk [("languageTagSystem", JSVal.str "")] [])
      = alookup TagSystems "bcp47" :=
  ⟨tagSystem_spec.1 _ rfl,
   tagSystem_spec.2.1 _ "legacy" rfl (by decide),
   tagSystem_spec.2.2 _ rfl⟩

/-- C10: after showing a locale its ignored list holds no occurrence of it, after
hiding a locale the list holds at least one occurrence, and in both cases all
entries of other locales are preserved (with order and multiplicity). -/
theorem toggleLocaleVisibility_spec (cfg : WorkspaceConfig) (l : String) :
    l ∉ Config.ignoredLocales (Config.toggleLocaleVisibility cfg l (some true))
    ∧ l ∈ Config.ignoredLocales (Config.toggleLocaleVisibility cfg l (some false))
    ∧ (Config.ignoredLocales (Config.toggleLocaleVisibility cfg l (some true))).filter
        (fun i => decide (i ≠ l))
        = (Config.ignoredLocales cfg).filter (fun i => decide (i ≠ l))
    ∧ (Config.ignoredLocales (Config.toggleLocaleVisibility cfg l (some false))).filter
        (fun i => decide (i ≠ l))
        = (Config.ignoredLocales cfg).filter (fun i => decide (i ≠ l)) := by
  refine ⟨?_, ?_, ?_, ?_⟩
  · simp [Config.toggleLocaleVisibility, ignoredLocales_setConfig, List.mem_filter]
  · simp [Config.toggleLocaleVisibility, ignoredLocales_setConfig]
  · simp [Config.toggleLocaleVisibility, ignoredLocales_setConfig, List.filter_filter]
  · simp [Config.toggleLocaleVisibility, ignoredLocales_setConfig, List.filter_append]

/-- C4, counterexample to the claim as stated: the stored list is `["a/"]` and
`updateLocalesPaths(["a/"])` is called with that already-present path, yet the
stored list changes (to `["a", "a/"]`), because the getter normalizes the
stored entry to `"a"` before the concatenation while the added raw path `"a/"`
is appended unnormalized. -/
theorem updateLocalesPaths_readd_cex :
    alookup (Config.updateLocalesPaths
        (WorkspaceConfig.mk [("localesPaths", JSVal.arr ["a/"])] []) ["a/"]).current
        "localesPaths"
      ≠ some (JSVal.arr ["a/"]) := by decide

/-- C4 (amended): `updateLocalesPaths(Q)` stores the concatenation of the current
(normalized) list and `Q` with duplicates removed keeping first occurrences, so
the stored array never contains the same path twice; re-calling it with paths
already present leaves the stored list unchanged provided those stored and added
paths are in normalized form (no trailing `/` or `\` and no `\`). -/
theorem updateLocalesPaths_spec :
    (∀ cfg q, alookup (Config.updateLocalesPaths cfg q).current "localesPaths"
        = some (JSVal.arr (uniqFirst (((Config._localesPaths cfg).getD []) ++ q)))
      ∧ (uniqFirst (((Config._localesPaths cfg).getD []) ++ q)).Nodup)
    ∧ (∀ cfg xs q, alookup cfg.current "localesPaths" = some (JSVal.arr xs) →
        xs.Nodup → (∀ x ∈ xs, normPath x = x) → (∀ p ∈ q, p ∈ xs) →
        alookup (Config.updateLocalesPaths cfg q).current "localesPaths"
          = some (JSVal.arr xs)) := by
  constructor
  · exact fun cfg q => ⟨updateLocalesPaths_stores cfg q, uniqAux_nodup _ _⟩
  · intro cfg xs q hcur hnd hnorm hsub
    have hget : Config._localesPaths cfg = some xs := by
      simp [Config._localesPaths, Config.getConfig, hcur, JSVal.truthy,
        list_map_self normPath xs hnorm]
    have h1 : uniqFirst (xs ++ q) = xs :=
      uniqAux_append xs [] q (by intro x _; simp) hnd (fun p hp => Or.inl (hsub p hp))
    rw [updateLocalesPaths_stores cfg q, hget]
    simp only [Option.getD_some]
    rw [h1]

/-- Witness for C4's amended theorem at concrete configurations. -/
theorem updateLocalesPaths_spec_w :
    alookup (Config.updateLocalesPaths (WorkspaceConfig.mk [] []) ["a"]).current "localesPaths"
      = some (JSVal.arr (uniqFirst
          (((Config._localesPaths (WorkspaceConfig.mk [] [])).getD []) ++ ["a"])))
    ∧ alookup (Config.updateLocalesPaths
        (WorkspaceConfig.mk [("localesPaths", JSVal.arr ["a"])] []) ["a"]).current
        "localesPaths"
      = some (JSVal.arr ["a"]) :=
  ⟨(updateLocalesPaths_spec.1 (WorkspaceConfig.mk [] []) ["a"]).1,
   updateLocalesPaths_spec.2 _ ["a"] ["a"] rfl (by decide) (by decide) (by decide)⟩

/-- C6, counterexample to the claim as stated: for the single path `"a,b"`, which
contains a comma, the string shape `'a,b'` reads as two paths while the array
shape `["a,b"]` reads as one, so the two shapes disagree. -/
theorem localesPaths_comma_cex :
    Config._localesPaths (WorkspaceConfig.mk [("localesPaths", JSVal.str "a,b")] [])
      ≠ Config._localesPaths (WorkspaceConfig.mk [("localesPaths", JSVal.arr ["a,b"])] []) := by
  decide

/-- C6 (amended): for every nonempty list of comma-free paths whose joined form
is nonempty, reading the comma-joined string yields the same list as reading the
array, each element with trailing `/` and `\` trimmed and `\` replaced by `/`. -/
theorem localesPaths_shape_spec (ps : List String) (h1 : ps ≠ [])
    (h2 : ∀ p ∈ ps, ',' ∉ p.data)
    (h3 : joinComma (ps.map String.data) ≠ []) :
    Config._localesPaths (WorkspaceConfig.mk
        [("localesPaths", JSVal.str (String.mk (joinComma (ps.map String.data))))] [])
      = Config._localesPaths (WorkspaceConfig.mk [("localesPaths", JSVal.arr ps)] [])
    ∧ Config._localesPaths (WorkspaceConfig.mk [("localesPaths", JSVal.arr ps)] [])
      = some (ps.map normPath) := by
  have harr : Config._localesPaths (WorkspaceConfig.mk [("localesPaths", JSVal.arr ps)] [])
      = some (ps.map normPath) := by
    simp [Config._localesPaths, Config.getConfig, alookup, JSVal.truthy]
  refine ⟨?_, harr⟩
  rw [harr]
  have hne : String.mk (joinComma (ps.map String.data)) ≠ "" := by
    intro hcon
    apply h3
    have h0 : ("" : String) = String.mk [] := rfl
    rw [h0] at hcon
    injection hcon
  have hstep : Config._localesPaths (WorkspaceConfig.mk
      [("localesPaths", JSVal.str (String.mk (joinComma (ps.map String.data))))] [])
      = if (JSVal.str (String.mk (joinComma (ps.map String.data)))).truthy = false then none
        else some ((splitComma (joinComma (ps.map String.data))).map
          (fun l => normPath (String.mk l))) := rfl
  have hcond : ¬ ((JSVal.str (String.mk (joinComma (ps.map String.data)))).truthy = false) := by
    simp [JSVal.truthy, hne]
  rw [hstep, if_neg hcond]
  rw [splitComma_joinComma (ps.map String.data)
    (by simpa [List.map_eq_nil_iff] using h1)
    (by intro p hp
        rcases List.mem_map.mp hp with ⟨q, hq, hqe⟩
        exact hqe ▸ h2 q hq)]
  rw [List.map_map]
  have hfg : ((fun l => normPath (String.mk l)) ∘ String.data) = normPath :=
    funext (fun q => congrArg normPath (string_mk_data q))
  rw [hfg]

/-- Witness for C6's amended theorem at a concrete path list. -/
theorem localesPaths_shape_spec_w :
    Config._localesPaths (WorkspaceConfig.mk
        [("localesPaths", JSVal.str (String.mk
          (joinComma ((["a", "b/"] : List String).map String.data))))] [])
      = Config._localesPaths (WorkspaceConfig.mk
        [("localesPaths", JSVal.arr ["a", "b/"])] [])
    ∧ Config._localesPaths (WorkspaceConfig.mk [("localesPaths", JSVal.arr ["a", "b/"])] [])
      = some ((["a", "b/"] : List String).map normPath) :=
  localesPaths_shape_spec ["a", "b/"] (by decide) (by decide) (by decide)

/-- C7: two raw locale strings denoting the same locale under different casing
or separator conventions — i.e. with equal case-folded subtag lists — normalize
to the same canonical form under `Config.normalizeLocale`, whichever registered
tag system is selected by the configuration. -/
theorem normalizeLocale_canonical (cfg : WorkspaceConfig) (s1 s2 : String)
    (hf : tagFold s1 = tagFold s2) :
    Config.normalizeLocale cfg s1 none false = Config.normalizeLocale cfg s2 none false := by
  unfold Config.normalizeLocale
  cases h : Config.tagSystem cfg with
  | none => rfl
  | some ts =>
    show some (ts.normalize s1 none false) = some (ts.normalize s2 none false)
    exact congrArg some (tagSystems_normalize_factor _ ts h s1 s2 none false hf)

/-- Witness for C7 at `'en_US'` versus `'en-us'` under the default configuration. -/
theorem normalizeLocale_canonical_w :
    Config.normalizeLocale (WorkspaceConfig.mk [] []) "en_US" none false
      = Config.normalizeLocale (WorkspaceConfig.mk [] []) "en-us" none false :=
  normalizeLocale_canonical (WorkspaceConfig.mk [] []) "en_US" "en-us" (by decide)

/-- C9: `sourceLanguage` never yields the empty string; when the configured
source language normalizes to the empty fallback, the result is the normalized
display language, or `'en'` when that is empty as well. -/
theorem sourceLanguage_spec (cfg : WorkspaceConfig) :
    (∀ r, Config.sourceLanguage cfg = some r → r ≠ "")
    ∧ (∀ ts d, Config.tagSystem cfg = some ts →
        ts.normalize (strOr (Config.getConfig cfg "sourceLanguage") "") (some "") false = "" →
        Config.displayLanguage cfg = some d →
        Config.sourceLanguage cfg = some (strFallback d "en")) := by
  constructor
  · intro r hr
    unfold Config.sourceLanguage at hr
    cases h : Config.tagSystem cfg with
    | none => rw [h] at hr; exact Option.noConfusion hr
    | some ts =>
      rw [h] at hr
      injection hr with he
      rw [← he]
      exact strFallback_ne_empty _ "en" (by decide)
  · intro ts d hts hn hd
    unfold Config.sourceLanguage
    rw [hts]
    show some (strFallback
        (strFallback
          (ts.normalize (strOr (Config.getConfig cfg "sourceLanguage") "") (some "") false)
          (ts.normalize (strOr (Config.getConfig cfg "displayLanguage") "") none false))
        "en")
      = some (strFallback d "en")
    unfold Config.displayLanguage at hd
    rw [hts] at hd
    injection hd with hde
    have hde2 : ts.normalize (strOr (Config.getConfig cfg "displayLanguage") "") none false = d :=
      hde
    rw [hn, hde2]
    rw [show strFallback "" d = d from by simp [strFallback]]

/-- Witness for C9 at the empty configuration: nothing is configured, the
normalized source language is the empty fallback, the display language is
empty, and `sourceLanguage` ends at `'en'` — a nonempty value. -/
theorem sourceLanguage_spec_w :
    ("en" : String) ≠ ""
    ∧ Config.sourceLanguage (WorkspaceConfig.mk [] []) = some (strFallback "" "en") :=
  ⟨(sourceLanguage_spec (WorkspaceConfig.mk [] [])).1 "en" rfl,
   (sourceLanguage_spec (WorkspaceConfig.mk [] [])).2 bcp47Sys "" rfl rfl rfl⟩

/-- C8, counterexample to the claim as stated: `{01}` is a placeholder whose
digit sequence denotes index `1`, which has the defined entry `"b"`, yet
`format` leaves it verbatim (a JavaScript array has no `"01"` property), while
the claim's reading replaces it. -/
theorem format_leading_zero_cex :
    i18n.format "{01}" [some "a", some "b"]
      ≠ formatClaimed "{01}" [some "a", some "b"] := by decide

/-- C8 (amended): `format` replaces exactly the placeholders `{n}` whose digit
sequence is the canonical decimal numeral (no leading zeros) of an index with a
defined entry in `args`, keeps every other placeholder and all non-placeholder
text verbatim; and `t` returns the empty string for every key absent from the
loaded messages. -/
theorem i18n_format_spec :
    (∀ s args, i18n.format s args = formatAmended s args)
    ∧ (∀ messages key args, alookup messages key = none →
        i18n.t messages key args = "") := by
  constructor
  · intro s args
    unfold i18n.format formatAmended tokenize
    rw [fmtGo_eq_render args s.data.length s.data (Nat.le_refl _)]
  · intro m k args h
    unfold i18n.t
    rw [h]
    simp only [Option.getD_none]
    by_cases ha : args.length ≠ 0
    · rw [if_pos ha]
      rfl
    · rw [if_neg ha]

/-- Witness for C8's amended theorem at a concrete template and message table. -/
theorem i18n_format_spec_w :
    i18n.format "x{0}y{2}" [some "A"] = formatAmended "x{0}y{2}" [some "A"]
    ∧ i18n.t [("a", "b")] "missing" [some "A"] = "" :=
  ⟨i18n_format_spec.1 "x{0}y{2}" [some "A"],
   i18n_format_spec.2 [("a", "b")] "missing" [some "A"] rfl⟩


